import Mathlib

/-!
Verification development for the notification propagation core documented in
this repository (the `use-less-react` reactive-state library).  The library
ships as an npm package; this repository holds its documentation, so the
operations below are shallow embeddings built from the spec and from the
behaviour described in the repository's docs and blog posts.
-/

/-- Facet names are strings identifying observable units of state. -/
abbrev Facet := String

/-- Modelled from the spec: the Dependency Propagator's declared edges.  A
declaration `declare(derived, bases)` contributes one propagation edge
`(base, derived)` per base facet: when `base` is reported changed, `derived`
is added to the same change report. -/
abbrev DepGraph := List (Facet × Facet)

/-- Facets that can ever be added by propagation: the targets of edges. -/
def depTargets (g : DepGraph) : Finset Facet :=
  (g.map Prod.snd).toFinset

/-- Modelled from the spec: one round of the propagation traversal.  Every
derived facet whose base is already in the set is added to the set. -/
def stepF (g : DepGraph) (s : Finset Facet) : Finset Facet :=
  s ∪ ((g.filter (fun e => decide (e.1 ∈ s))).map Prod.snd).toFinset

/-- Modelled from the spec: `expand(changed)` returns `changed` plus every
facet transitively reachable from it along declared edges, computed by a
terminating traversal.  Iterating the one-round step once more than the
number of possible targets reaches the closure. -/
def expand (g : DepGraph) (s : Finset Facet) : Finset Facet :=
  (stepF g)^[(depTargets g).card + 1] s

/-- Modelled from the spec: `@DependsOn` stores the declared dependency list
in a shared map.  Per depends-on.md nothing validates the declaration: its
notes instead warn that circular dependencies must be avoided because they
can cause infinite notification loops, so no declaration is ever rejected.
The `Except` codomain records that there is no error path. -/
def declareDeps (g : DepGraph) (derived : Facet) (bases : List Facet) :
    Except String DepGraph :=
  Except.ok (g ++ bases.map (fun b => (b, derived)))

/-- Bounded reachability check: `reachNB g n x y` holds when `y` is reachable
from `x` along declared edges in at most `n` steps. -/
def reachNB (g : DepGraph) : Nat → Facet → Facet → Bool
  | 0, x, y => x == y
  | n + 1, x, y =>
    x == y || (g.filter (fun e => e.1 == x)).any (fun e => reachNB g n e.2 y)

/-- Decidable acyclicity check on the declared edges: no edge starts a path
returning to its own source. -/
def acyclicB (g : DepGraph) : Bool :=
  !(g.any (fun e => reachNB g g.length e.2 e.1))

/-- Reflexive-transitive reachability along declared propagation edges. -/
inductive Reaches (g : DepGraph) (x : Facet) : Facet → Prop
  | refl : Reaches g x x
  | tail {y z : Facet} : Reaches g x y → (y, z) ∈ g → Reaches g x z

/-- Modelled from the spec: the observable per-entity state of the
Notification Registry together with the Batch Coordinator.  `depth` is the
batch-depth counter, `pending` the pending-change set, and `deliveries` the
ordered log of delivered changed-facet sets. -/
structure PubSubState where
  depth : Nat
  pending : Finset Facet
  deliveries : List (Finset Facet)
deriving DecidableEq

/-- A freshly constructed entity: no open batch, nothing pending, nothing
delivered. -/
def initPS : PubSubState := { depth := 0, pending := ∅, deliveries := [] }

/-- Events observable at the registry boundary.  `openB`/`closeB` are the
opening and closing of a batch scope, `report` a change report, `mutate` a
domain-state mutation that does not touch the registry, and `suspend` a
suspension point of deferred work (which never touches the registry). -/
inductive Ev where
  | openB
  | closeB
  | report (keys : Finset Facet)
  | mutate
  | suspend
deriving DecidableEq

/-- Modelled from the spec: one step of the registry and batch coordinator.
Opening a batch increments the counter.  Closing decrements it; on the
transition from 1 to 0 the pending set, expanded through the dependency
propagator, is delivered once and cleared.  A report while a batch is open
merges the keys into the pending set; an unbatched report delivers the
expanded keys immediately. -/
def stepEv (g : DepGraph) (s : PubSubState) : Ev → PubSubState
  | Ev.openB => { s with depth := s.depth + 1 }
  | Ev.closeB =>
    match s.depth with
    | 0 => s
    | 1 =>
      { depth := 0, pending := ∅,
        deliveries := s.deliveries ++ [expand g s.pending] }
    | n + 2 => { s with depth := n + 1 }
  | Ev.report ks =>
    if s.depth = 0 then
      { s with deliveries := s.deliveries ++ [expand g ks] }
    else { s with pending := s.pending ∪ ks }
  | Ev.mutate => s
  | Ev.suspend => s

/-- Run a sequence of registry events. -/
def runEvs (g : DepGraph) (evs : List Ev) (s : PubSubState) : PubSubState :=
  evs.foldl (stepEv g) s

/-- Modelled from the spec: the event trace of a method wrapped by
`@Notifies` with declared facet names `keys`.  The wrapper runs the original
body and, after the body's result has fully settled, reports the declared
keys exactly once. -/
def notifiesTr (keys : Finset Facet) (bodyTr : List Ev) : List Ev :=
  bodyTr ++ [Ev.report keys]

/-- Test for a report event. -/
def isReportEv : Ev → Bool
  | Ev.report _ => true
  | _ => false

/-- Modelled from the spec: executing a `@Notifies`-wrapped method whose body
produced the trace `bodyTr`.  If the body throws (or its deferred result
rejects), the failure propagates (the `Bool` component is `true`) and the
declared keys are not reported; on success they are reported once after the
body settles. -/
def notifiesRun (g : DepGraph) (keys : Finset Facet) (bodyTr : List Ev)
    (bodyThrows : Bool) (s : PubSubState) : PubSubState × Bool :=
  if bodyThrows then (runEvs g bodyTr s, true)
  else (runEvs g (notifiesTr keys bodyTr) s, false)

/-- Modelled from the spec: `runBatched(work)` where `work` reports the sets
in `reports` and then throws.  The coordinator increments the counter before
running `work` and decrements it when `work` settles regardless of failure;
the error propagates to the caller (`Bool` component `true`). -/
def runBatchedAborted (g : DepGraph) (reports : List (Finset Facet))
    (s : PubSubState) : PubSubState × Bool :=
  (stepEv g (runEvs g (reports.map Ev.report) (stepEv g s Ev.openB))
    Ev.closeB, true)

/-- Modelled from the spec: the Notification Registry attached to one
constructed object by the capability composer.  `subs` are the subscribed
observer identifiers, `calls` the log of observer invocations (observer,
delivered set). -/
structure Registry where
  subs : List Nat
  calls : List (Nat × Finset Facet)
deriving DecidableEq

/-- A fresh registry: no observers, no invocations. -/
def freshRegistry : Registry := { subs := [], calls := [] }

/-- The collection of constructed objects, each owning its registry. -/
abbrev World := List Registry

/-- Apply `f` to the registry at position `i`, leaving all others alone. -/
def worldModify : World → Nat → (Registry → Registry) → World
  | [], _, _ => []
  | r :: rest, 0, f => f r :: rest
  | r :: rest, i + 1, f => r :: worldModify rest i f

/-- Modelled from the spec: constructing an object of a type produced by the
capability composer (`PubSubMixin`) allocates a fresh registry for that
object.  Returns the new world and the new object's identifier. -/
def constructInst (w : World) : World × Nat := (w ++ [freshRegistry], w.length)

/-- Subscribe observer `o` to the object `i`. -/
def subscribeAt (w : World) (i : Nat) (o : Nat) : World :=
  worldModify w i (fun r => { r with subs := r.subs ++ [o] })

/-- Report `keys` on object `i`: every observer subscribed to `i` receives
the expanded set; no other object's registry is touched. -/
def notifyAt (g : DepGraph) (w : World) (i : Nat) (keys : Finset Facet) :
    World :=
  worldModify w i (fun r =>
    { r with calls := r.calls ++ r.subs.map (fun o => (o, expand g keys)) })

/-- Plain JSON-compatible values appearing in dehydrated payloads. -/
inductive PlainVal where
  | num (n : Int)
  | str (s : String)
  | boolean (b : Bool)
deriving DecidableEq

/-- A plain object: a mapping from string keys to plain values. -/
abbrev PlainObj := List (String × PlainVal)

/-- The `Sprite` entity from the hydration-context doc: two stored fields
`x` and `y`.  JavaScript numbers carry no arithmetic here, so they are
modelled as integers. -/
structure Sprite where
  x : Int
  y : Int
deriving DecidableEq

/-- The declared facet of `Sprite`: the derived `position` getter. -/
def Sprite.position (s : Sprite) : Int × Int := (s.x, s.y)

/-- Translated from the `Sprite.dehydrate` method shown in the source:
serialize an instance to a plain object with fields `x` and `y`. -/
def Sprite.dehydrate (s : Sprite) : PlainObj :=
  [("x", PlainVal.num s.x), ("y", PlainVal.num s.y)]

/-- Translated from the `Sprite.hydrate` static method shown in the source:
validate that `x` and `y` are present and numeric, then construct the
instance; otherwise fail with the error the source throws. -/
def Sprite.hydrate (o : PlainObj) : Except String Sprite :=
  match o.lookup "x", o.lookup "y" with
  | some (PlainVal.num xv), some (PlainVal.num yv) =>
    Except.ok { x := xv, y := yv }
  | _, _ => Except.error "invalid params"

mutual
/-- A JavaScript value: a primitive, or an object with a frozen flag and
string-keyed fields (arrays are objects in this sense). -/
inductive JsVal where
  | prim (s : String)
  | obj (frozen : Bool) (fields : JsFields)
/-- The own fields of a JavaScript object. -/
inductive JsFields where
  | nil
  | cons (key : String) (val : JsVal) (rest : JsFields)
end

mutual
/-- Modelled from the spec: the recursive `Object.freeze` applied by
`ImmutableClass` to a property value — the value and everything nested in it
become frozen; primitives are unaffected. -/
def deepFreeze : JsVal → JsVal
  | JsVal.prim s => JsVal.prim s
  | JsVal.obj _ fs => JsVal.obj true (deepFreezeF fs)
/-- Deep-freeze every value in a field list. -/
def deepFreezeF : JsFields → JsFields
  | JsFields.nil => JsFields.nil
  | JsFields.cons k v rest => JsFields.cons k (deepFreeze v) (deepFreezeF rest)
end

mutual
/-- A value is deeply frozen when every object node in it is frozen. -/
def deeplyFrozen : JsVal → Bool
  | JsVal.prim _ => true
  | JsVal.obj fr fs => fr && deeplyFrozenF fs
/-- Every value of the field list is deeply frozen. -/
def deeplyFrozenF : JsFields → Bool
  | JsFields.nil => true
  | JsFields.cons _ v rest => deeplyFrozen v && deeplyFrozenF rest
end

/-- Look up a key among an object's own fields. -/
def fieldsLookup : JsFields → String → Option JsVal
  | JsFields.nil, _ => none
  | JsFields.cons k v rest, key =>
    if k = key then some v else fieldsLookup rest key

/-- Replace the value stored under `key` (or append it when absent). -/
def fieldsSet : JsFields → String → JsVal → JsFields
  | JsFields.nil, key, nv => JsFields.cons key nv JsFields.nil
  | JsFields.cons k v rest, key, nv =>
    if k = key then JsFields.cons k nv rest
    else JsFields.cons k v (fieldsSet rest key nv)

/-- Strict-mode JavaScript property assignment on a value: assigning to a
property of a frozen object (or of a primitive) raises a `TypeError`,
modelled as `Except.error ()`. -/
def setField (v : JsVal) (k : String) (nv : JsVal) : Except Unit JsVal :=
  match v with
  | JsVal.prim _ => Except.error ()
  | JsVal.obj true _ => Except.error ()
  | JsVal.obj false fs => Except.ok (JsVal.obj false (fieldsSet fs k nv))

/-- Assignment along a property path, strict-mode semantics: the final step
needs the object holding the assigned slot to be unfrozen; traversal steps
only need the path to exist.  Writing back into the parent does not require
the parent to be writable, because in JavaScript the nested object is
mutated in place. -/
def assignPath (v : JsVal) : List String → JsVal → Except Unit JsVal
  | [], _ => Except.error ()
  | [k], nv => setField v k nv
  | k :: k2 :: rest, nv =>
    match v with
    | JsVal.prim _ => Except.error ()
    | JsVal.obj fr fs =>
      match fieldsLookup fs k with
      | none => Except.error ()
      | some child =>
        (assignPath child (k2 :: rest) nv).map
          (fun c2 => JsVal.obj fr (fieldsSet fs k c2))

/-- Modelled from the spec: the instance produced by an
`ImmutableClass`-decorated constructor.  Per the source doc, after `super`
returns the decorator iterates over the instance's own properties and
applies `Object.freeze` to each of them, recursively — the property values
are deep-frozen, while the instance object itself is not frozen. -/
def immutableConstruct (fs : JsFields) : JsVal :=
  JsVal.obj false (deepFreezeF fs)

/-- Concrete instance fields from the source doc's example: a `user`
property holding a nested object. -/
def aliceFields : JsFields :=
  JsFields.cons "user"
    (JsVal.obj false (JsFields.cons "name" (JsVal.prim "Alice") JsFields.nil))
    JsFields.nil

theorem subset_stepF (g : DepGraph) (s : Finset Facet) : s ⊆ stepF g s :=
  fun _ hx => Finset.mem_union_left _ hx

theorem stepF_new_subset (g : DepGraph) (s : Finset Facet) :
    stepF g s \ s ⊆ depTargets g := by
  intro x hx
  rw [Finset.mem_sdiff] at hx
  obtain ⟨hx1, hx2⟩ := hx
  rw [stepF, Finset.mem_union] at hx1
  rcases hx1 with h | h
  · exact absurd h hx2
  · rw [List.mem_toFinset, List.mem_map] at h
    obtain ⟨e, he, hex⟩ := h
    rw [List.mem_filter] at he
    rw [depTargets, List.mem_toFinset, List.mem_map]
    exact ⟨e, he.1, hex⟩

theorem subset_iter (g : DepGraph) (s : Finset Facet) (n : Nat) :
    s ⊆ (stepF g)^[n] s := by
  induction n with
  | zero => exact fun _ hx => hx
  | succ n ih =>
    rw [Function.iterate_succ_apply']
    exact fun x hx => subset_stepF g _ (ih hx)

theorem iter_subset_succ (g : DepGraph) (s : Finset Facet) (n : Nat) :
    (stepF g)^[n] s ⊆ (stepF g)^[n + 1] s := by
  rw [Function.iterate_succ_apply']
  exact subset_stepF g _

theorem iter_diff_subset (g : DepGraph) (s : Finset Facet) (n : Nat) :
    (stepF g)^[n] s \ s ⊆ depTargets g := by
  induction n with
  | zero => simp
  | succ n ih =>
    intro x hx
    rw [Finset.mem_sdiff] at hx
    by_cases hmem : x ∈ (stepF g)^[n] s
    · exact ih (Finset.mem_sdiff.mpr ⟨hmem, hx.2⟩)
    · refine stepF_new_subset g ((stepF g)^[n] s) ?_
      rw [Finset.mem_sdiff]
      rw [Function.iterate_succ_apply'] at hx
      exact ⟨hx.1, hmem⟩

theorem iter_of_fixpoint (g : DepGraph) (t : Finset Facet)
    (h : stepF g t = t) (m : Nat) : (stepF g)^[m] t = t := by
  induction m with
  | zero => rfl
  | succ m ih => rw [Function.iterate_succ_apply', ih, h]

theorem iter_fix_from (g : DepGraph) (s : Finset Facet) (n : Nat)
    (h : stepF g ((stepF g)^[n] s) = (stepF g)^[n] s) :
    ∀ m, n ≤ m → (stepF g)^[m] s = (stepF g)^[n] s := by
  intro m hm
  obtain ⟨k, rfl⟩ := Nat.exists_eq_add_of_le hm
  rw [Nat.add_comm, Function.iterate_add_apply]
  exact iter_of_fixpoint g _ h k

theorem exists_fix (g : DepGraph) (s : Finset Facet) :
    ∃ n ≤ (depTargets g).card,
      stepF g ((stepF g)^[n] s) = (stepF g)^[n] s := by
  by_contra hcon
  push_neg at hcon
  have key : ∀ n, n ≤ (depTargets g).card + 1 →
      n ≤ ((stepF g)^[n] s \ s).card := by
    intro n
    induction n with
    | zero => intro _; exact Nat.zero_le _
    | succ n ih =>
      intro hn
      have hn1 : n ≤ (depTargets g).card := Nat.lt_succ_iff.mp hn
      have hne := hcon n hn1
      have hss : (stepF g)^[n] s \ s ⊂ (stepF g)^[n + 1] s \ s := by
        have hsub : (stepF g)^[n] s ⊆ (stepF g)^[n + 1] s :=
          iter_subset_succ g s n
      -- pick an element added at this round; it lies outside s as well
        have hssb : (stepF g)^[n] s ⊂ (stepF g)^[n + 1] s := by
          refine ⟨hsub, fun hback => ?_⟩
          apply hne
          apply Finset.Subset.antisymm
          · intro x hx
            rw [← Function.iterate_succ_apply' (stepF g) n s] at hx
            exact hback hx
          · exact subset_stepF g _
        obtain ⟨x, hx1, hx2⟩ := Finset.exists_of_ssubset hssb
        refine ⟨fun y hy => ?_, fun hback => ?_⟩
        · rw [Finset.mem_sdiff] at hy ⊢
          exact ⟨hsub hy.1, hy.2⟩
        · have hxs : x ∉ s := fun hxs => hx2 (subset_iter g s n hxs)
          have : x ∈ (stepF g)^[n] s \ s :=
            hback (Finset.mem_sdiff.mpr ⟨hx1, hxs⟩)
          exact hx2 (Finset.mem_sdiff.mp this).1
      have hcard := Finset.card_lt_card hss
      have := ih (Nat.le_of_succ_le hn)
      omega
  have hbig := key ((depTargets g).card + 1) (Nat.le_refl _)
  have hsmall : (((stepF g)^[(depTargets g).card + 1] s) \ s).card ≤
      (depTargets g).card :=
    Finset.card_le_card (iter_diff_subset g s _)
  omega

theorem stepF_expand_fix (g : DepGraph) (s : Finset Facet) :
    stepF g (expand g s) = expand g s := by
  obtain ⟨n, hn, hfix⟩ := exists_fix g s
  have h1 : expand g s = (stepF g)^[n] s :=
    iter_fix_from g s n hfix _ (by omega)
  rw [h1]
  exact hfix

theorem subset_expand (g : DepGraph) (s : Finset Facet) : s ⊆ expand g s :=
  subset_iter g s _

theorem expand_idem (g : DepGraph) (s : Finset Facet) :
    expand g (expand g s) = expand g s := by
  have hfix := stepF_expand_fix g s
  exact iter_of_fixpoint g (expand g s) hfix _

theorem expand_sound (g : DepGraph) (s : Finset Facet) (y : Facet)
    (hy : y ∈ expand g s) : ∃ x ∈ s, Reaches g x y := by
  have aux : ∀ n y, y ∈ (stepF g)^[n] s → ∃ x ∈ s, Reaches g x y := by
    intro n
    induction n with
    | zero => exact fun y hy => ⟨y, hy, Reaches.refl⟩
    | succ n ih =>
      intro y hy
      rw [Function.iterate_succ_apply', stepF, Finset.mem_union] at hy
      rcases hy with h | h
      · exact ih y h
      · rw [List.mem_toFinset, List.mem_map] at h
        obtain ⟨e, he, hey⟩ := h
        rw [List.mem_filter] at he
        obtain ⟨x, hx, hre⟩ := ih e.1 (by
          have := he.2
          rwa [decide_eq_true_eq] at this)
        refine ⟨x, hx, ?_⟩
        have hedge : (e.1, y) ∈ g := by
          have : e = (e.1, e.2) := rfl
          rw [← hey]
          exact he.1
        exact Reaches.tail hre hedge
  exact aux _ y hy

theorem expand_complete (g : DepGraph) (s : Finset Facet) (x y : Facet)
    (hx : x ∈ s) (hr : Reaches g x y) : y ∈ expand g s := by
  induction hr with
  | refl => exact subset_expand g s hx
  | @tail y1 z1 hre hedge ih =>
    rw [← stepF_expand_fix g s, stepF, Finset.mem_union]
    right
    rw [List.mem_toFinset, List.mem_map]
    refine ⟨(y1, z1), ?_, rfl⟩
    rw [List.mem_filter]
    exact ⟨hedge, by simpa using ih⟩

theorem runEvs_append (g : DepGraph) (l1 l2 : List Ev) (s : PubSubState) :
    runEvs g (l1 ++ l2) s = runEvs g l2 (runEvs g l1 s) :=
  List.foldl_append _ _ _ _

theorem runEvs_inert (g : DepGraph) :
    ∀ tr : List Ev, (∀ e ∈ tr, e = Ev.mutate ∨ e = Ev.suspend) →
      ∀ s : PubSubState, runEvs g tr s = s := by
  intro tr
  induction tr with
  | nil => intro _ _; rfl
  | cons e rest ih =>
    intro h s
    have he := h e (List.mem_cons_self e rest)
    have hrest := fun e2 h2 => h e2 (List.mem_cons_of_mem e h2)
    rcases he with he | he <;> subst he <;> exact ih hrest s

theorem runEvs_reports_pos (g : DepGraph) :
    ∀ (ks : List (Finset Facet)) (s : PubSubState), 0 < s.depth →
      runEvs g (ks.map Ev.report) s =
        { s with pending := ks.foldl (fun a k => a ∪ k) s.pending } := by
  intro ks
  induction ks with
  | nil => intro _ _; rfl
  | cons k rest ih =>
    intro s h
    have h2 : stepEv g s (Ev.report k) = { s with pending := s.pending ∪ k } := by
      simp only [stepEv]
      exact if_neg (by omega)
    calc runEvs g ((k :: rest).map Ev.report) s
        = runEvs g (rest.map Ev.report) (stepEv g s (Ev.report k)) := rfl
      _ = runEvs g (rest.map Ev.report) { s with pending := s.pending ∪ k } := by
          rw [h2]
      _ = { s with pending := rest.foldl (fun a k2 => a ∪ k2) (s.pending ∪ k) } :=
          ih { s with pending := s.pending ∪ k } h

/-- C1 (amended): for every dependency graph, entity state with no open
batch and empty pending set, and facet sets A and B, the trace
open-batch, report(A), report(B), close-batch produces exactly one delivery,
occurring at the close, whose set is expand(A ∪ B); no delivery happens
before the close.  (A facet outside expand(A ∪ B) therefore never appears
in the delivered set; a facet inside it can appear without being reported
when it is a declared dependent of a reported facet.) -/
theorem batch_two_reports (g : DepGraph) (A B : Finset Facet)
    (s : PubSubState) (hd : s.depth = 0) (hp : s.pending = ∅) :
    runEvs g [Ev.openB, Ev.report A, Ev.report B, Ev.closeB] s =
        { depth := 0, pending := ∅,
          deliveries := s.deliveries ++ [expand g (A ∪ B)] } ∧
      (runEvs g [Ev.openB] s).deliveries = s.deliveries ∧
      (runEvs g [Ev.openB, Ev.report A] s).deliveries = s.deliveries ∧
      (runEvs g [Ev.openB, Ev.report A, Ev.report B] s).deliveries =
        s.deliveries := by
  obtain ⟨d, p, dl⟩ := s
  have hd2 : d = 0 := hd
  have hp2 : p = ∅ := hp
  subst hd2
  subst hp2
  refine ⟨?_, rfl, rfl, rfl⟩
  show PubSubState.mk 0 ∅ (dl ++ [expand g ((∅ ∪ A) ∪ B)]) =
    PubSubState.mk 0 ∅ (dl ++ [expand g (A ∪ B)])
  rw [Finset.empty_union]

/-- Witness for C1 at a concrete input. -/
theorem batch_two_reports_w :
    initPS.depth = 0 ∧ initPS.pending = ∅ ∧
      runEvs [] [Ev.openB, Ev.report {"a"}, Ev.report {"b"}, Ev.closeB]
          initPS =
        { depth := 0, pending := ∅,
          deliveries := initPS.deliveries ++ [expand [] ({"a"} ∪ {"b"})] } :=
  ⟨rfl, rfl, (batch_two_reports [] {"a"} {"b"} initPS rfl rfl).1⟩

/-- C1 counterexample: with the declared edge count-to-isEven style graph
a-to-b, a batch that only ever reports the facet a delivers a set that
contains b, a facet that was never reported during the batch.  This refutes
the conjunct that a facet never reported during the batch never appears in
the delivered set. -/
theorem batch_two_reports_cx :
    (runEvs [("a", "b")]
        [Ev.openB, Ev.report {"a"}, Ev.report ∅, Ev.closeB]
        initPS).deliveries = [({"a", "b"} : Finset Facet)] ∧
      ("b" : Facet) ∉ ({"a"} : Finset Facet) ∪ (∅ : Finset Facet) := by
  decide

/-- C2: the pending-change set is flushed exactly on the batch-depth
transition from 1 to 0: closing at depth 1 delivers the expanded pending
set once and clears it; closing at greater depth only decrements the
counter; a report while any batch is open delivers nothing; and the nested
trace runBatched(runBatched(report x)) delivers x exactly once, only after
the outermost close. -/
theorem batch_depth_flush_invariant :
    (∀ (g : DepGraph) (s : PubSubState), s.depth = 1 →
        stepEv g s Ev.closeB =
          { depth := 0, pending := ∅,
            deliveries := s.deliveries ++ [expand g s.pending] }) ∧
      (∀ (g : DepGraph) (s : PubSubState), 2 ≤ s.depth →
        stepEv g s Ev.closeB = { s with depth := s.depth - 1 }) ∧
      (∀ (g : DepGraph) (s : PubSubState) (ks : Finset Facet), 0 < s.depth →
        stepEv g s (Ev.report ks) = { s with pending := s.pending ∪ ks }) ∧
      (∀ g : DepGraph,
        (runEvs g [Ev.openB, Ev.openB, Ev.report {"x"}, Ev.closeB, Ev.closeB]
            initPS).deliveries = [expand g {"x"}] ∧
          (runEvs g [Ev.openB] initPS).deliveries = [] ∧
          (runEvs g [Ev.openB, Ev.openB] initPS).deliveries = [] ∧
          (runEvs g [Ev.openB, Ev.openB, Ev.report {"x"}] initPS).deliveries =
            [] ∧
          (runEvs g [Ev.openB, Ev.openB, Ev.report {"x"}, Ev.closeB]
            initPS).deliveries = [] ∧
          (runEvs [] [Ev.openB, Ev.openB, Ev.report {"x"}, Ev.closeB,
            Ev.closeB] initPS).deliveries = [({"x"} : Finset Facet)]) := by
  refine ⟨?_, ?_, ?_, ?_⟩
  · intro g s hd
    obtain ⟨d, p, dl⟩ := s
    have hd2 : d = 1 := hd
    subst hd2
    rfl
  · intro g s hd
    obtain ⟨d, p, dl⟩ := s
    have hd2 : 2 ≤ d := hd
    match d, hd2 with
    | n + 2, _ => rfl
  · intro g s ks hd
    obtain ⟨d, p, dl⟩ := s
    have hd2 : 0 < d := hd
    match d, hd2 with
    | n + 1, _ =>
      simp only [stepEv]
      exact if_neg (by omega)
  · intro g
    refine ⟨?_, rfl, rfl, rfl, rfl, by decide⟩
    show (PubSubState.mk 0 ∅ ([] ++ [expand g (∅ ∪ {"x"})])).deliveries =
      [expand g {"x"}]
    rw [Finset.empty_union]
    rfl

/-- Witness for C2 at concrete inputs. -/
theorem batch_depth_flush_invariant_w :
    stepEv [] (PubSubState.mk 1 {"a"} []) Ev.closeB =
        PubSubState.mk 0 ∅ [expand [] {"a"}] ∧
      stepEv [] (PubSubState.mk 2 ∅ []) Ev.closeB = PubSubState.mk 1 ∅ [] ∧
      stepEv [] (PubSubState.mk 1 ∅ []) (Ev.report {"k"}) =
        PubSubState.mk 1 (∅ ∪ {"k"}) [] ∧
      (runEvs [] [Ev.openB, Ev.openB, Ev.report {"x"}, Ev.closeB, Ev.closeB]
        initPS).deliveries = [expand [] {"x"}] :=
  ⟨batch_depth_flush_invariant.1 [] (PubSubState.mk 1 {"a"} []) rfl,
    batch_depth_flush_invariant.2.1 [] (PubSubState.mk 2 ∅ []) (by decide),
    batch_depth_flush_invariant.2.2.1 [] (PubSubState.mk 1 ∅ []) {"k"}
      (by decide),
    (batch_depth_flush_invariant.2.2.2 []).1⟩

/-- C5: when the work passed to runBatched reports some facet sets and then
throws, the batch still closes — the counter returns to zero — and the
pending set, expanded through the dependency propagator, is delivered
exactly once and then cleared, while the failure propagates to the
caller. -/
theorem batch_failure_still_flushes (g : DepGraph)
    (reports : List (Finset Facet)) (s : PubSubState) (hd : s.depth = 0) :
    runBatchedAborted g reports s =
        ({ depth := 0, pending := ∅,
            deliveries := s.deliveries ++
              [expand g (reports.foldl (fun a k => a ∪ k) s.pending)] },
          true) ∧
      (runBatchedAborted g reports s).1.deliveries.length =
        s.deliveries.length + 1 := by
  obtain ⟨d, p, dl⟩ := s
  have hd2 : d = 0 := hd
  subst hd2
  have h1 : runEvs g (reports.map Ev.report)
      (stepEv g (PubSubState.mk 0 p dl) Ev.openB) =
      PubSubState.mk 1 (reports.foldl (fun a k => a ∪ k) p) dl :=
    runEvs_reports_pos g reports (stepEv g (PubSubState.mk 0 p dl) Ev.openB)
      (by exact Nat.one_pos)
  constructor
  · show (stepEv g (runEvs g (reports.map Ev.report)
        (stepEv g (PubSubState.mk 0 p dl) Ev.openB)) Ev.closeB, true) = _
    rw [h1]
    rfl
  · show (stepEv g (runEvs g (reports.map Ev.report)
        (stepEv g (PubSubState.mk 0 p dl) Ev.openB))
          Ev.closeB).deliveries.length = dl.length + 1
    rw [h1]
    show (dl ++ [expand g (reports.foldl (fun a k => a ∪ k) p)]).length =
      dl.length + 1
    rw [List.length_append]
    rfl

/-- Witness for C5 at a concrete input. -/
theorem batch_failure_still_flushes_w :
    initPS.depth = 0 ∧
      runBatchedAborted [] [{"x"}] initPS =
        ({ depth := 0, pending := ∅,
            deliveries := initPS.deliveries ++
              [expand [] ([{"x"}].foldl (fun a k => a ∪ k) initPS.pending)] },
          true) :=
  ⟨rfl, (batch_failure_still_flushes [] [{"x"}] initPS rfl).1⟩

/-- C4: a method wrapped by the change-marking wrapper reports its declared
facet names exactly once per invocation — the report is the final event,
after the whole body trace including its suspension points has settled —
regardless of how many times (including zero) the body mutated state; run
unbatched, the invocation yields exactly one delivery of the expanded
declared set. -/
theorem notifies_wrapper_reports_once (g : DepGraph) (keys : Finset Facet)
    (bodyTr : List Ev) (s : PubSubState)
    (hb : ∀ e ∈ bodyTr, e = Ev.mutate ∨ e = Ev.suspend)
    (hd : s.depth = 0) :
    ((notifiesTr keys bodyTr).filter isReportEv).length = 1 ∧
      (notifiesTr keys bodyTr).getLast? = some (Ev.report keys) ∧
      runEvs g (notifiesTr keys bodyTr) s =
        { s with deliveries := s.deliveries ++ [expand g keys] } := by
  refine ⟨?_, ?_, ?_⟩
  · rw [notifiesTr, List.filter_append]
    have hnil : bodyTr.filter isReportEv = [] := by
      rw [List.filter_eq_nil_iff]
      intro e he
      rcases hb e he with h | h <;> subst h <;> decide
    rw [hnil]
    rfl
  · rw [notifiesTr, List.getLast?_concat]
  · rw [notifiesTr, runEvs_append, runEvs_inert g bodyTr hb s]
    obtain ⟨d, p, dl⟩ := s
    have hd2 : d = 0 := hd
    subst hd2
    rfl

/-- Witness for C4 at a concrete input. -/
theorem notifies_wrapper_reports_once_w :
    ((notifiesTr {"count"} [Ev.mutate, Ev.suspend, Ev.mutate]).filter
        isReportEv).length = 1 ∧
      (notifiesTr {"count"} [Ev.mutate, Ev.suspend, Ev.mutate]).getLast? =
        some (Ev.report {"count"}) ∧
      runEvs [] (notifiesTr {"count"} [Ev.mutate, Ev.suspend, Ev.mutate])
          initPS =
        { initPS with
            deliveries := initPS.deliveries ++ [expand [] {"count"}] } :=
  notifies_wrapper_reports_once [] {"count"}
    [Ev.mutate, Ev.suspend, Ev.mutate] initPS (by decide) rfl

/-- C6: when the original body of a change-marked wrapper throws (or its
deferred result rejects), the failure propagates unchanged to the caller
and the declared facet names are not reported: the registry state carries
exactly the body's own effects, and for a body that only mutated domain
state it is entirely unchanged. -/
theorem notifies_wrapper_failure (g : DepGraph) (keys : Finset Facet)
    (bodyTr : List Ev) (s : PubSubState)
    (hb : ∀ e ∈ bodyTr, e = Ev.mutate ∨ e = Ev.suspend) :
    notifiesRun g keys bodyTr true s = (s, true) ∧
      ∀ tr2 : List Ev, notifiesRun g keys tr2 true s =
        (runEvs g tr2 s, true) := by
  constructor
  · show (runEvs g bodyTr s, true) = (s, true)
    rw [runEvs_inert g bodyTr hb s]
  · intro _
    rfl

/-- Witness for C6 at a concrete input. -/
theorem notifies_wrapper_failure_w :
    notifiesRun [] {"count"} [Ev.mutate, Ev.suspend] true initPS =
        (initPS, true) ∧
      ∀ tr2 : List Ev, notifiesRun [] {"count"} tr2 true initPS =
        (runEvs [] tr2 initPS, true) :=
  notifies_wrapper_failure [] {"count"} [Ev.mutate, Ev.suspend] initPS
    (by decide)

/-- C3 counterexample: declaring a-depends-on-b and then b-depends-on-a both
succeed — neither declaration is rejected with a configuration error — even
though the resulting declared edges are cyclic.  This matches the source
doc, whose notes say circular dependencies must be avoided because they can
cause infinite notification loops, i.e. no declaration-time check exists. -/
theorem declare_cycle_not_rejected :
    (declareDeps [] "a" ["b"]).bind (fun g => declareDeps g "b" ["a"]) =
        Except.ok [("b", "a"), ("a", "b")] ∧
      acyclicB [("b", "a"), ("a", "b")] = false := by
  constructor
  · rfl
  · decide

/-- C3 (amended): the declare operation succeeds unconditionally — for every
graph and every declaration, cyclic or not, it returns the graph extended
with one edge per base facet and never a configuration error; avoiding
cycles is left to the caller. -/
theorem declare_always_succeeds (g : DepGraph) (derived : Facet)
    (bases : List Facet) :
    ∃ g2, declareDeps g derived bases = Except.ok g2 ∧
      ∀ e, e ∈ g2 ↔ e ∈ g ∨ ∃ b ∈ bases, e = (b, derived) := by
  refine ⟨g ++ bases.map (fun b => (b, derived)), rfl, fun e => ?_⟩
  rw [List.mem_append, List.mem_map]
  constructor
  · rintro (h | ⟨b, hb, rfl⟩)
    · exact Or.inl h
    · exact Or.inr ⟨b, hb, rfl⟩
  · rintro (h | ⟨b, hb, rfl⟩)
    · exact Or.inl h
    · exact Or.inr ⟨b, hb, rfl⟩

/-- C7: for an acyclic dependency graph, expand of a singleton contains
exactly the facet itself plus every facet transitively reachable from it
along declared edges, and expand is a fixed point under self-application. -/
theorem expand_reach_fixed_point (g : DepGraph) (x : Facet)
    (hacy : acyclicB g = true) :
    (∀ y, y ∈ expand g {x} ↔ Reaches g x y) ∧
      expand g (expand g {x}) = expand g {x} := by
  refine ⟨fun y => ⟨fun hy => ?_, fun hr => ?_⟩, expand_idem g {x}⟩
  · obtain ⟨x0, hx0, hre⟩ := expand_sound g {x} y hy
    rw [Finset.mem_singleton] at hx0
    rwa [hx0] at hre
  · exact expand_complete g {x} x y (Finset.mem_singleton_self x) hr

/-- Witness for C7 at a concrete input. -/
theorem expand_reach_fixed_point_w :
    acyclicB [("count", "isEven")] = true ∧
      ((∀ y, y ∈ expand [("count", "isEven")] {"count"} ↔
          Reaches [("count", "isEven")] "count" y) ∧
        expand [("count", "isEven")]
            (expand [("count", "isEven")] {"count"}) =
          expand [("count", "isEven")] {"count"}) :=
  ⟨by decide, expand_reach_fixed_point [("count", "isEven")] "count"
    (by decide)⟩

theorem worldModify_get_ne :
    ∀ (w : World) (i j : Nat) (f : Registry → Registry), i ≠ j →
      (worldModify w j f).get? i = w.get? i := by
  intro w
  induction w with
  | nil => intro _ _ _ _; rfl
  | cons r rest ih =>
    intro i j f hij
    cases j with
    | zero =>
      cases i with
      | zero => exact absurd rfl hij
      | succ i2 => rfl
    | succ j2 =>
      cases i with
      | zero => rfl
      | succ i2 =>
        have h2 : i2 ≠ j2 := fun h => hij (by rw [h])
        show (worldModify rest j2 f).get? i2 = rest.get? i2
        exact ih i2 j2 f h2

/-- C8: the capability composer gives every constructed object a registry of
its own: construction appends a fresh registry; reporting on one object
leaves every other object's registry untouched, as does subscribing; and in
the two-instance scenario, subscribing an observer to the first instance and
then reporting facets on the second invokes no observer at all — the first
instance's call log stays empty and the second has no subscribers. -/
theorem pubsub_mixin_independence (g : DepGraph) (o : Nat)
    (keys : Finset Facet) (w : World) (i j : Nat) (hij : i ≠ j) :
    ((constructInst w).1.get? (constructInst w).2 = some freshRegistry) ∧
      ((notifyAt g w j keys).get? i = w.get? i) ∧
      ((subscribeAt w j o).get? i = w.get? i) ∧
      notifyAt g (subscribeAt (constructInst (constructInst []).1).1 0 o) 1
          keys =
        [{ subs := [o], calls := [] }, freshRegistry] :=
  ⟨List.get?_concat_length w freshRegistry,
    worldModify_get_ne w i j _ hij, worldModify_get_ne w i j _ hij, rfl⟩

/-- Witness for C8 at a concrete input. -/
theorem pubsub_mixin_independence_w :
    ((constructInst [freshRegistry]).1.get?
        (constructInst [freshRegistry]).2 = some freshRegistry) ∧
      ((notifyAt [] [freshRegistry] 1 {"k"}).get? 0 =
        [freshRegistry].get? 0) ∧
      ((subscribeAt [freshRegistry] 1 7).get? 0 =
        [freshRegistry].get? 0) ∧
      notifyAt [] (subscribeAt (constructInst (constructInst []).1).1 0 7) 1
          {"k"} =
        [{ subs := [7], calls := [] }, freshRegistry] :=
  pubsub_mixin_independence [] 7 {"k"} [freshRegistry] 0 1 (by decide)

/-- C9: hydrate after dehydrate reproduces the Sprite instance exactly, and
in particular the rebuilt instance is observationally equal to the original
on the declared `position` facet. -/
theorem sprite_round_trip (s : Sprite) :
    Sprite.hydrate (Sprite.dehydrate s) = Except.ok s ∧
      ∃ s2, Sprite.hydrate (Sprite.dehydrate s) = Except.ok s2 ∧
        s2.position = s.position := by
  have h : Sprite.hydrate (Sprite.dehydrate s) = Except.ok s := rfl
  exact ⟨h, s, h, rfl⟩

mutual
theorem deepFreeze_frozen : ∀ v : JsVal, deeplyFrozen (deepFreeze v) = true
  | JsVal.prim _ => rfl
  | JsVal.obj _ fs => by
    show (true && deeplyFrozenF (deepFreezeF fs)) = true
    rw [deepFreezeF_frozen fs]
    rfl
theorem deepFreezeF_frozen :
    ∀ fs : JsFields, deeplyFrozenF (deepFreezeF fs) = true
  | JsFields.nil => rfl
  | JsFields.cons _ v rest => by
    show (deeplyFrozen (deepFreeze v) && deeplyFrozenF (deepFreezeF rest)) =
      true
    rw [deepFreeze_frozen v, deepFreezeF_frozen rest]
    rfl
end

theorem frozen_lookup :
    ∀ (fs : JsFields) (k : String) (c : JsVal), deeplyFrozenF fs = true →
      fieldsLookup fs k = some c → deeplyFrozen c = true
  | JsFields.nil, _, _, _, h => by cases h
  | JsFields.cons k0 v rest, k, c, hf, hl => by
    have hf2 : (deeplyFrozen v && deeplyFrozenF rest) = true := hf
    rw [Bool.and_eq_true] at hf2
    by_cases hk : k0 = k
    · have : some v = some c := by
        have h3 : fieldsLookup (JsFields.cons k0 v rest) k = some v := by
          rw [fieldsLookup, if_pos hk]
        rw [← h3, hl]
      injection this with h4
      rw [← h4]
      exact hf2.1
    · have h3 : fieldsLookup (JsFields.cons k0 v rest) k =
          fieldsLookup rest k := by
        rw [fieldsLookup, if_neg hk]
      rw [h3] at hl
      exact frozen_lookup rest k c hf2.2 hl

theorem frozen_assign_fails :
    ∀ (p : List String) (v : JsVal) (nv : JsVal), deeplyFrozen v = true →
      p ≠ [] → assignPath v p nv = Except.error ()
  | [], _, _, _, hp => absurd rfl hp
  | [k], v, nv, hf, _ => by
    cases v with
    | prim s => rfl
    | obj fr fs =>
      have hf2 : (fr && deeplyFrozenF fs) = true := hf
      rw [Bool.and_eq_true] at hf2
      cases fr
      · exact absurd hf2.1 (by decide)
      · rfl
  | k :: k2 :: rest, v, nv, hf, _ => by
    cases v with
    | prim s => rfl
    | obj fr fs =>
      have hf2 : (fr && deeplyFrozenF fs) = true := hf
      rw [Bool.and_eq_true] at hf2
      show (match fieldsLookup fs k with
        | none => Except.error ()
        | some child =>
          (assignPath child (k2 :: rest) nv).map
            (fun c2 => JsVal.obj fr (fieldsSet fs k c2))) = Except.error ()
      cases hl : fieldsLookup fs k with
      | none => rfl
      | some child =>
        have hc : deeplyFrozen child = true :=
          frozen_lookup fs k child hf2.2 hl
        have hfail := frozen_assign_fails (k2 :: rest) child nv hc
          (by simp)
        show Except.map (fun c2 => JsVal.obj fr (fieldsSet fs k c2))
          (assignPath child (k2 :: rest) nv) = Except.error ()
        rw [hfail]
        rfl

/-- C10 (amended): once an ImmutableClass-decorated constructor returns,
every value stored in the instance's own properties is deeply frozen, so
any assignment targeting a property of one of those values — at any nesting
depth — fails with a TypeError and returns no modified state; the instance
object itself, however, is not frozen, so its own property slots remain
assignable. -/
theorem immutable_class_nested_frozen (fs : JsFields) (k : String)
    (p : List String) (nv : JsVal) (hp : p ≠ []) :
    deeplyFrozenF (deepFreezeF fs) = true ∧
      assignPath (immutableConstruct fs) (k :: p) nv = Except.error () := by
  refine ⟨deepFreezeF_frozen fs, ?_⟩
  match p, hp with
  | k2 :: rest, _ =>
    show (match fieldsLookup (deepFreezeF fs) k with
      | none => Except.error ()
      | some child =>
        (assignPath child (k2 :: rest) nv).map
          (fun c2 => JsVal.obj false (fieldsSet (deepFreezeF fs) k c2))) =
      Except.error ()
    cases hl : fieldsLookup (deepFreezeF fs) k with
    | none => rfl
    | some child =>
      have hc : deeplyFrozen child = true :=
        frozen_lookup (deepFreezeF fs) k child (deepFreezeF_frozen fs) hl
      have hfail := frozen_assign_fails (k2 :: rest) child nv hc (by simp)
      show Except.map
          (fun c2 => JsVal.obj false (fieldsSet (deepFreezeF fs) k c2))
          (assignPath child (k2 :: rest) nv) = Except.error ()
      rw [hfail]
      rfl

/-- Witness for C10 at a concrete input: mutating a field nested inside a
frozen property value fails. -/
theorem immutable_class_nested_frozen_w :
    deeplyFrozenF (deepFreezeF aliceFields) = true ∧
      assignPath (immutableConstruct aliceFields) ["user", "name"]
        (JsVal.prim "Bob") = Except.error () :=
  immutable_class_nested_frozen aliceFields "user" ["name"]
    (JsVal.prim "Bob") (by simp)

/-- C10 counterexample: the decorator freezes the property values, not the
instance itself, so assigning a new value to an own property slot of the
instance succeeds — no TypeError — and replaces the stored (frozen) value,
refuting the conjunct that any subsequent assignment to an own property
fails and leaves the stored state unchanged. -/
theorem immutable_class_slot_assignable :
    assignPath (immutableConstruct aliceFields) ["user"]
        (JsVal.prim "evil") =
      Except.ok (JsVal.obj false
        (JsFields.cons "user" (JsVal.prim "evil") JsFields.nil)) ∧
      fieldsLookup (deepFreezeF aliceFields) "user" =
        some (JsVal.obj true
          (JsFields.cons "name" (JsVal.prim "Alice") JsFields.nil)) :=
  ⟨rfl, rfl⟩
